import Mathlib

/-!
Verification of the mdbook-drawio preprocessor (src/lib.rs) against its
natural-language specification.

The embedding models the program's text as `List Char` (one entry per
Unicode scalar, matching Rust's `char`-level regex semantics on UTF-8
strings).  Filesystem state is a pair of oracles (`present`, `mtime`);
the external drawio subprocess is an oracle in the environment.  All
definitions are translated from the Rust source of `src/lib.rs`.
-/

set_option maxRecDepth 10000

namespace MdbookDrawio


/-- Text and paths are sequences of characters (Rust regex operates on
`char` boundaries of UTF-8 strings; `PathBuf` display is the raw string). -/
abbrev Text := List Char

/-- Opening brace character, `\x7b`. -/
def lbr : Char := '\x7b'

/-- Closing brace character, `\x7d`. -/
def rbr : Char := '\x7d'

/-- Double-quote character. -/
def qt : Char := '\"'

/-! ## Freshness oracle (`should_generate`, src/lib.rs lines 241-270)

The filesystem is modelled by two independent oracles: whether a path
exists (`Path::exists`) and whether/what last-modified time a metadata
read yields (`fs::metadata(..).and_then(|m| m.modified())`, which can
fail even for an existing file).  Timestamps are naturals. -/

structure FS where
  present : Text → Bool
  mtime : Text → Option Nat

/-- Function `should_generate` from src/lib.rs:241-270: regenerate when the output
does not exist, when either metadata read fails, or when the input's
mtime is strictly later than the output's. -/
def should_generate (fs : FS) (input output : Text) : Bool :=
  if !(fs.present output) then
    true
  else
    match fs.mtime input with
    | none => true
    | some input_mtime =>
      match fs.mtime output with
      | none => true
      | some output_mtime => decide (output_mtime < input_mtime)

/-! ## The directive grammar (`directive_regex`, src/lib.rs line 133)

The regex `\{\{#drawio\s+path=\"([^\"]+)\"\s+page=([0-9]+)[^}]*\}\}` is
embedded as a deterministic matcher at a fixed start position.  Every
quantified subpattern here is followed by a pattern disjoint from its
character class (`\s+` by `p`, `[^"]+` by `"`, `[^}]*` by `}`), except
`[0-9]+` whose follower `[^}]*` subsumes digits; in all cases greedy
matching without backtracking computes exactly the regex's captures, so
the matcher below is equivalent to the regex's match-at-position
semantics. -/

/-- Rust regex `\s` (Unicode `White_Space`). -/
def isWs (c : Char) : Bool :=
  c.toNat = 0x09 || c.toNat = 0x0A || c.toNat = 0x0B || c.toNat = 0x0C ||
  c.toNat = 0x0D || c.toNat = 0x20 || c.toNat = 0x85 || c.toNat = 0xA0 ||
  c.toNat = 0x1680 || (0x2000 ≤ c.toNat && c.toNat ≤ 0x200A) ||
  c.toNat = 0x2028 || c.toNat = 0x2029 || c.toNat = 0x202F || c.toNat = 0x3000

/-- Consume an exact literal prefix, returning the remaining text. -/
def expectString : Text → Text → Option Text
  | [], s => some s
  | _ :: _, [] => none
  | l :: ls, c :: cs => if l = c then expectString ls cs else none

/-- Consume a non-empty maximal run of characters satisfying `p`
(a greedy `+`-quantified character class). -/
def takeWhile1 (p : Char → Bool) (s : Text) : Option (Text × Text) :=
  if s.takeWhile p = [] then none else some (s.takeWhile p, s.dropWhile p)

/-- Literal `{{#drawio`. -/
def litOpen : Text := [lbr, lbr, '#', 'd', 'r', 'a', 'w', 'i', 'o']

/-- Literal `path="`. -/
def litPath : Text := ['p', 'a', 't', 'h', '=', qt]

/-- Literal `page=`. -/
def litPage : Text := ['p', 'a', 'g', 'e', '=']

/-- Match the directive regex at the start of `s`.  On success returns
the path capture (group 1), the page capture (group 2), and the text
remaining after the match. -/
def matchDirective (s : Text) : Option (Text × Text × Text) :=
  (expectString litOpen s).bind fun s1 =>
  (takeWhile1 isWs s1).bind fun ws1 =>
  (expectString litPath ws1.2).bind fun s3 =>
  (takeWhile1 (fun c => !(c = qt)) s3).bind fun pathPr =>
  (expectString [qt] pathPr.2).bind fun s5 =>
  (takeWhile1 isWs s5).bind fun ws2 =>
  (expectString litPage ws2.2).bind fun s7 =>
  (takeWhile1 Char.isDigit s7).bind fun pagePr =>
  (expectString [rbr, rbr] (pagePr.2.dropWhile (fun c => !(c = rbr)))).map fun s9 =>
  (pathPr.1, pagePr.1, s9)

/-- Numeric value of a decimal digit string. -/
def digitsToNat (s : Text) : Nat :=
  s.foldl (fun acc c => acc * 10 + (c.toNat - 48)) 0

/-- Rust `str::parse::<u32>` restricted to the strings this program feeds
it (the regex's digit-only capture): fails on the empty string, on any
non-digit character, and on values exceeding `u32::MAX = 4294967295`
(Rust reports `PosOverflow`; appending digits only grows the value, so
the step-wise overflow check is equivalent to this final-value check). -/
def parseU32 (s : Text) : Option Nat :=
  if s = [] then none
  else if s.all (fun c => c.isDigit) then
    if digitsToNat s ≤ 4294967295 then some (digitsToNat s) else none
  else none

/-! ## Path operations

Paths are plain character strings with `/` separators, mirroring how the
program only ever builds paths by `join` and reads them back via
`file_name`/`file_stem`/`display`.  `Path::components` normalization of
`.`/`..`/trailing-slash segments is not modelled; all paths the program
constructs are free of such segments. -/

/-- Rust `PathBuf::push`/`Path::join`: an absolute right operand replaces the
left; otherwise a `/` separator is inserted unless already present. -/
def pathJoin (a b : Text) : Text :=
  if b.head? = some '/' then b
  else if a = [] then b
  else if a.getLast? = some '/' then a ++ b
  else a ++ '/' :: b

/-- The final `/`-separated component of a path (empty for a path ending
in `/`). -/
def lastComponent (s : Text) : Text :=
  (s.reverse.takeWhile (fun c => !(c = '/'))).reverse

/-- Rust `Path::file_name`: the final component, unless it is empty, `.`, or
`..`. -/
def fileName (s : Text) : Option Text :=
  let n := lastComponent s
  if n = [] ∨ n = ['.'] ∨ n = ['.', '.'] then none else some n

/-- Strip the extension from a file name, Rust-style: everything before
the last `.`, except that a name with no `.` or only a leading `.` is
kept whole. -/
def stemOfName (n : Text) : Text :=
  let revExt := n.reverse.takeWhile (fun c => !(c = '.'))
  if revExt.length = n.length then n
  else
    let pre := (n.reverse.drop (revExt.length + 1)).reverse
    if pre = [] then n else pre

/-- Rust `Path::file_stem`. -/
def fileStem (s : Text) : Option Text :=
  (fileName s).map stemOfName

/-! ## Environment (preprocessor context and external collaborators) -/

/-- Diagnostic output of a launched subprocess (`std::process::Output`):
exit status, stdout and stderr.  The program logs these and never
branches on them. -/
structure ProcResult where
  status : Int
  stdout : Text
  stderr : Text
  /-- The filesystem as left behind by the subprocess (it may or may not
  have written the requested output file). -/
  fsAfter : FS

/-- The preprocessor context (`PreprocessorContext`) together with the
external subprocess oracle.  `invoke bin input page output fs` is the
outcome of spawning the renderer: `none` when the process fails to
launch, otherwise its diagnostics and the filesystem it leaves behind. -/
structure Env where
  root : Text
  /-- `ctx.config.book.src`. -/
  srcDir : Text
  /-- `[preprocessor.drawio.result-dir]`, when set. -/
  resultDirCfg : Option Text
  /-- `[preprocessor.drawio.drawio-bin]`, when set. -/
  drawioBinCfg : Option Text
  invoke : Text → Text → Nat → Text → FS → Option ProcResult

/-- Function `get_result_dir` (src/lib.rs:105-110): configured name or the default
`mdbook-drawio`. -/
def get_result_dir (E : Env) : Text :=
  E.resultDirCfg.getD ("mdbook-drawio".toList)

/-- Function `get_result_dir_abs` (src/lib.rs:113-119): `root/src/<result-dir>`. -/
def get_result_dir_abs (E : Env) : Text :=
  pathJoin (pathJoin E.root E.srcDir) (get_result_dir E)

/-- Function `get_drawio_bin` (src/lib.rs:123-128): configured name or `drawio`. -/
def get_drawio_bin (E : Env) : Text :=
  E.drawioBinCfg.getD ("drawio".toList)

/-! ## Renderer invoker (`drawio_export`, src/lib.rs lines 137-191) -/

/-- The decision `drawio_export` makes after the subprocess call: on
launch failure, error; otherwise error exactly when the output file does
not exist afterward.  The subprocess's status/stdout/stderr are logged
only.  Returns the error-or-unit result together with the filesystem. -/
def export_check (res : Option ProcResult) (fs : FS) (output_path : Text) :
    Except (List Char) Unit × FS :=
  match res with
  | none => (Except.error ("Output file was not created".toList), fs)
  | some out =>
    if out.fsAfter.present output_path then (Except.ok (), out.fsAfter)
    else (Except.error ("Output file was not created".toList), out.fsAfter)

/-- Function `drawio_export` (src/lib.rs:137-191): spawn the renderer and judge
success solely by the post-condition that the output file exists. -/
def drawio_export (E : Env) (input : Text) (page : Nat) (output_path : Text)
    (fs : FS) : Except (List Char) Unit × FS :=
  export_check (E.invoke (get_drawio_bin E) input page output_path fs) fs output_path

/-! ## The substitution function (`process_match`, src/lib.rs lines 32-81)

State threaded through the rewrite: the filesystem plus a count of
renderer invocations.  `none` models a process abort (a failed
`.unwrap()`): the page capture failing to parse as `u32`, or the joined
diagram path having no file stem.  `create_dir_all(..).ok()` only
affects directories, which the filesystem oracle does not track. -/

/-- Artifact file name `<stem>-page-<page>.svg` (src/lib.rs:53). -/
def svgName (stem : Text) (page : Nat) : Text :=
  stem ++ "-page-".toList ++ Nat.toDigits 10 page ++ ".svg".toList

/-- Absolute artifact path: `<result-dir-abs>/<svg-name>` (src/lib.rs:59). -/
def svgPathOf (E : Env) (stem : Text) (page : Nat) : Text :=
  pathJoin (get_result_dir_abs E) (svgName stem page)

/-- The Markdown snippet emitted for one occurrence (src/lib.rs:74-78):
`![Diagram not found at <link>](<link>)`. -/
def snippetOf (rel : Text) : Text :=
  "![Diagram not found at ".toList ++ rel ++ "](".toList ++ rel ++ [')']

/-- Function `relative_path_from_chapter` (src/lib.rs:194-230).  The chapter path
is its component list (`ch.path`), `none` for draft chapters;
`parent().components().count()` is the component count minus one. -/
def relative_path_from_chapter (E : Env) (chPath : Option (List String))
    (target : Text) : Option Text :=
  match fileName target with
  | none => none
  | some target_filename =>
    let depth := match chPath with
      | none => 0
      | some comps => comps.length - 1
    let up_dirs : Text :=
      if depth = 0 then ['.'] else (List.replicate depth ("../".toList)).flatten
    some (pathJoin (pathJoin up_dirs (get_result_dir E)) target_filename)

/-- Function `process_match` (src/lib.rs:32-81), given the two captures of one
matched occurrence: resolve the diagram's absolute path, derive the
artifact name and path, compute the chapter-relative link, regenerate
when `should_generate` says so (discarding the export result via
`.ok()`), and emit the Markdown snippet.  Returns `none` on the aborts
noted above. -/
def processMatch (E : Env) (chPath : Option (List String))
    (pathCap pageCap : Text) (st : FS × Nat) : Option (Text × (FS × Nat)) :=
  match parseU32 pageCap with
  | none => none
  | some page =>
    let absolute_path := pathJoin E.root pathCap
    match fileStem absolute_path with
    | none => none
    | some diagram_name =>
      let svg_path := svgPathOf E diagram_name page
      match relative_path_from_chapter E chPath svg_path with
      | none => none
      | some svg_relative_path =>
        let fs := st.1
        let st2 :=
          if should_generate fs absolute_path svg_path then
            ((drawio_export E absolute_path page svg_path fs).2, st.2 + 1)
          else st
        some (snippetOf svg_relative_path, st2)

/-! ## The rewriter (`Regex::replace_all`, src/lib.rs lines 84-94)

Leftmost, non-overlapping replacement: scan left to right; at each
position either the regex matches (replace, resume after the match) or
the character is copied verbatim.  The substitution is stateful (it
touches the filesystem) and may abort (`none`).  Structural recursion on
a fuel bounded by the text length (each step strictly shrinks the text,
a match consuming at least the opening literal). -/

def replaceAllStAux {σ : Type} (f : Text → Text → σ → Option (Text × σ)) :
    Nat → Text → σ → Option (Text × σ)
  | 0, s, st => some (s, st)
  | _ + 1, [], st => some ([], st)
  | fuel + 1, c :: cs, st =>
    match matchDirective (c :: cs) with
    | some (pathCap, pageCap, rest) =>
      match f pathCap pageCap st with
      | none => none
      | some (rep, st1) =>
        match replaceAllStAux f fuel rest st1 with
        | none => none
        | some (out, st2) => some (rep ++ out, st2)
    | none =>
      match replaceAllStAux f fuel cs st with
      | none => none
      | some (out, st2) => some (c :: out, st2)

/-- Rust `replace_all` of the directive regex over `s` with substitution `f`. -/
def replaceAllSt {σ : Type} (f : Text → Text → σ → Option (Text × σ))
    (s : Text) (st : σ) : Option (Text × σ) :=
  replaceAllStAux f s.length s st

/-- The text-rewriting step of `process_chapter` (src/lib.rs:84-89):
`re.replace_all(&ch.content, |caps| process_match(ctx, &ch, caps))`. -/
def processChapterContent (E : Env) (chPath : Option (List String))
    (content : Text) (st : FS × Nat) : Option (Text × (FS × Nat)) :=
  replaceAllSt (processMatch E chPath) content st

/-! ## The book tree (`run`/`process_item`/`process_chapter`, src/lib.rs 23-100)

`BookItem` mirrors mdbook's: chapters (name, content, section number,
sub-items, path, source path, parent names), separators, part titles.
`none` results model a process abort inside a substitution; the
`Except` channel mirrors the `Result<(), Error>` plumbing of
`process_item`/`process_chapter`/`run`. -/

mutual
inductive BookItem where
  | chapter (name : Text) (content : Text) (number : Option (List Nat))
      (subItems : BookItems) (path : Option (List String))
      (sourcePath : Option (List String)) (parentNames : List Text)
  | separator
  | partTitle (title : Text)
inductive BookItems where
  | nil
  | cons (i : BookItem) (rest : BookItems)
end

mutual

/-- Function `process_item` (src/lib.rs:24-29): chapters are processed, all other
items pass through untouched. -/
def processItem (E : Env) : BookItem → FS × Nat →
    Option (Except (List Char) (BookItem × (FS × Nat)))
  | BookItem.chapter n c num subs p sp pn, st =>
    match processChapterContent E p c st with
    | none => none
    | some (c2, st2) =>
      match processItems E subs st2 with
      | none => none
      | some (Except.error e) => some (Except.error e)
      | some (Except.ok (subs2, st3)) =>
        some (Except.ok (BookItem.chapter n c2 num subs2 p sp pn, st3))
  | BookItem.separator, st => some (Except.ok (BookItem.separator, st))
  | BookItem.partTitle t, st => some (Except.ok (BookItem.partTitle t, st))

/-- The sub-item loop of `process_chapter` (src/lib.rs:90-92) and the
section loop of `run` (src/lib.rs:96-98): process items in order,
propagating the first error. -/
def processItems (E : Env) : BookItems → FS × Nat →
    Option (Except (List Char) (BookItems × (FS × Nat)))
  | BookItems.nil, st => some (Except.ok (BookItems.nil, st))
  | BookItems.cons i rest, st =>
    match processItem E i st with
    | none => none
    | some (Except.error e) => some (Except.error e)
    | some (Except.ok (i2, st2)) =>
      match processItems E rest st2 with
      | none => none
      | some (Except.error e) => some (Except.error e)
      | some (Except.ok (rest2, st3)) =>
        some (Except.ok (BookItems.cons i2 rest2, st3))
end

/-- Function `run` (src/lib.rs:23-100): process every section, returning the
rewritten book. -/
def runPreprocessor (E : Env) (book : BookItems) (st : FS × Nat) :
    Option (Except (List Char) BookItems) :=
  match processItems E book st with
  | none => none
  | some (Except.error e) => some (Except.error e)
  | some (Except.ok (book2, _)) => some (Except.ok book2)

mutual

/-- A book item with every chapter's content erased: the "frame" a
rewrite must preserve (name, number, paths, parent names, item kinds and
ordering). -/
def shapeItem : BookItem → BookItem
  | BookItem.chapter n _ num subs p sp pn =>
    BookItem.chapter n [] num (shapeItems subs) p sp pn
  | BookItem.separator => BookItem.separator
  | BookItem.partTitle t => BookItem.partTitle t

/-- Contents-erased image of a list of book items. -/
def shapeItems : BookItems → BookItems
  | BookItems.nil => BookItems.nil
  | BookItems.cons i rest => BookItems.cons (shapeItem i) (shapeItems rest)
end

/-- The spec's own wording of the path-resolution algorithm (§4.2), as a
second definition for refinement comparison: count the directory
segments of the location's parent (0 when the document has no location
or sits at the tree root), prefix that many `../` segments (or a single
current-directory marker), append the cache-directory name, append the
bare filename. -/
def specRelativePath (resultDir : Text) (chPath : Option (List String))
    (fname : Text) : Text :=
  let n := match chPath with
    | none => 0
    | some comps => comps.length - 1
  (if n = 0 then ['.', '/'] else (List.replicate n ("../".toList)).flatten)
    ++ resultDir ++ '/' :: fname

/-- A default environment: root `/book`, source dir `src`, no
configuration overrides, renderer fails to launch. -/
def Edefault : Env :=
  ⟨"/book".toList, "src".toList, none, none, fun _ _ _ _ _ => none⟩

/-! ## Claim C9 -/

/-- A filesystem on which every artifact is present and as fresh as its
source (every path has mtime 5), so no occurrence regenerates. -/
def fsFresh : FS := ⟨fun _ => true, fun _ => some 5⟩

/-! ## Lemmas for claim C4: renderer outcomes never reach the text -/

/-- The same context with a different subprocess oracle (all
configuration fields unchanged). -/
def setInvoke (E : Env)
    (inv : Text → Text → Nat → Text → FS → Option ProcResult) : Env :=
  ⟨E.root, E.srcDir, E.resultDirCfg, E.drawioBinCfg, inv⟩

/-- Observable part of a processing result: the abort/error structure
and the rewritten payload, with the traversal state dropped. -/
def obsE {α : Type} : Option (Except (List Char) (α × (FS × Nat))) →
    Option (Except (List Char) α)
  | none => none
  | some (Except.error e) => some (Except.error e)
  | some (Except.ok (a, _)) => some (Except.ok a)

/-- Induction motive for C4 on one item: the observable result does not
depend on the subprocess oracle or the incoming state, and the error
channel is never used. -/
def ObsItem (i : BookItem) : Prop :=
  ∀ (E : Env) (inv2 : Text → Text → Nat → Text → FS → Option ProcResult)
    (st st' : FS × Nat),
    obsE (processItem (setInvoke E inv2) i st') = obsE (processItem E i st) ∧
    ∀ e, processItem E i st ≠ some (Except.error e)

/-- Induction motive for C4 on an item list. -/
def ObsItems (l : BookItems) : Prop :=
  ∀ (E : Env) (inv2 : Text → Text → Nat → Text → FS → Option ProcResult)
    (st st' : FS × Nat),
    obsE (processItems (setInvoke E inv2) l st') = obsE (processItems E l st) ∧
    ∀ e, processItems E l st ≠ some (Except.error e)

/-! ## Claim C4 -/

/-- A one-chapter book used for concrete runs. -/
def bookW : BookItems :=
  BookItems.cons
    (BookItem.chapter ("c".toList) ("hi".toList) none BookItems.nil none none [])
    BookItems.nil

/-! ## Claim C10 -/

/-- Induction motive for C10 on one item: a successful processing
preserves the content-erased shape. -/
def ShapeItem (i : BookItem) : Prop :=
  ∀ (E : Env) (st : FS × Nat) (r : BookItem × (FS × Nat)),
    processItem E i st = some (Except.ok r) → shapeItem r.1 = shapeItem i

/-- Induction motive for C10 on an item list. -/
def ShapeItems (l : BookItems) : Prop :=
  ∀ (E : Env) (st : FS × Nat) (r : BookItems × (FS × Nat)),
    processItems E l st = some (Except.ok r) → shapeItems r.1 = shapeItems l

/-! ## Proofs -/

/-! ## Lemmas about the matcher -/

/-- Claim C1: the freshness check regenerates exactly when the artifact
is missing, either last-modified time is unreadable, or the source is
strictly newer; it reuses exactly when the artifact is present, both
times are readable and the source's time is less than or equal to the
artifact's. -/
theorem claim_C1_freshness : ∀ (fs : FS) (input output : Text),
    (should_generate fs input output = true ↔
      fs.present output = false ∨ fs.mtime input = none ∨ fs.mtime output = none ∨
        ∃ a b, fs.mtime input = some a ∧ fs.mtime output = some b ∧ b < a) ∧
    (should_generate fs input output = false ↔
      fs.present output = true ∧
        ∃ a b, fs.mtime input = some a ∧ fs.mtime output = some b ∧ a ≤ b) := by
  intro fs input output
  unfold should_generate
  cases hp : fs.present output with
  | false => simp
  | true =>
    cases hi : fs.mtime input with
    | none => simp
    | some a =>
      cases ho : fs.mtime output with
      | none => simp
      | some b =>
        simp

/-! ## Claim C2 -/

theorem lastComponent_no_slash {s : Text} : ∀ c ∈ lastComponent s, c ≠ '/' := by
  intro c hc
  unfold lastComponent at hc
  rw [List.mem_reverse] at hc
  have := List.mem_takeWhile_imp hc
  simpa using this

theorem mem_stemOfName {n : Text} {c : Char} (h : c ∈ stemOfName n) : c ∈ n := by
  unfold stemOfName at h
  by_cases h1 : (n.reverse.takeWhile (fun c => !(c = '.'))).length = n.length
  · rw [if_pos h1] at h; exact h
  · rw [if_neg h1] at h
    by_cases h2 :
        (n.reverse.drop ((n.reverse.takeWhile (fun c => !(c = '.'))).length + 1)).reverse = []
    · rw [if_pos h2] at h; exact h
    · rw [if_neg h2] at h
      rw [List.mem_reverse] at h
      have := List.mem_of_mem_drop h
      rwa [List.mem_reverse] at this

theorem fileName_eq_some {s n : Text} (h : fileName s = some n) :
    n = lastComponent s ∧ n ≠ [] := by
  unfold fileName at h
  by_cases hc : lastComponent s = [] ∨ lastComponent s = ['.'] ∨ lastComponent s = ['.', '.']
  · simp [hc] at h
  · simp only [hc, if_neg, if_false] at h
    rw [Option.some.injEq] at h
    constructor
    · exact h.symm
    · intro hn
      exact hc (Or.inl (h.trans hn))

theorem fileName_no_slash {s n : Text} (h : fileName s = some n) :
    ∀ c ∈ n, c ≠ '/' := by
  obtain ⟨hn, -⟩ := fileName_eq_some h
  intro c hc
  exact lastComponent_no_slash c (hn ▸ hc)

theorem fileStem_no_slash {s n : Text} (h : fileStem s = some n) :
    ∀ c ∈ n, c ≠ '/' := by
  unfold fileStem at h
  rw [Option.map_eq_some'] at h
  obtain ⟨m, hm, rfl⟩ := h
  intro c hc
  exact fileName_no_slash hm c (mem_stemOfName hc)

theorem upDirs_ne_nil {n : Nat} (h : 0 < n) :
    (List.replicate n ("../".toList)).flatten ≠ [] := by
  cases n with
  | zero => omega
  | succ k => simp [List.replicate_succ]

theorem upDirs_getLast {n : Nat} (h : 0 < n) :
    ((List.replicate n ("../".toList)).flatten).getLast? = some '/' := by
  induction n with
  | zero => omega
  | succ k ih =>
    rw [List.replicate_succ, List.flatten_cons, List.getLast?_append]
    cases k with
    | zero => simp
    | succ k' => rw [ih (by omega)]; rfl

/-- How both `join`s in `relative_path_from_chapter` unfold for a
well-behaved cache-directory name and a separator-free filename. -/
theorem pathJoin_up (rd fname : Text) (n : Nat)
    (hrd1 : rd ≠ []) (hrd2 : rd.head? ≠ some '/') (hrd3 : rd.getLast? ≠ some '/')
    (hfh : fname.head? ≠ some '/') :
    pathJoin (pathJoin (if n = 0 then ['.']
        else (List.replicate n ("../".toList)).flatten) rd) fname =
      (if n = 0 then ['.', '/'] else (List.replicate n ("../".toList)).flatten)
        ++ rd ++ '/' :: fname := by
  obtain ⟨x, hx⟩ : ∃ x, rd.getLast? = some x :=
    Option.isSome_iff_exists.mp (List.getLast?_isSome.mpr hrd1)
  have hxne : x ≠ '/' := fun hcon => hrd3 (by rw [hx, hcon])
  by_cases h0 : n = 0
  · rw [if_pos h0, if_pos h0]
    have e1 : pathJoin ['.'] rd = ['.', '/'] ++ rd := by
      unfold pathJoin
      rw [if_neg hrd2, if_neg (by simp), if_neg (by decide)]
      rfl
    rw [e1]
    unfold pathJoin
    rw [if_neg hfh, if_neg (by simp), if_neg (by
      rw [List.getLast?_append, hx]
      simp [hxne])]
  · rw [if_neg h0, if_neg h0]
    have hne := upDirs_ne_nil (Nat.pos_of_ne_zero h0)
    have hlast := upDirs_getLast (Nat.pos_of_ne_zero h0)
    have e1 : pathJoin ((List.replicate n ("../".toList)).flatten) rd =
        (List.replicate n ("../".toList)).flatten ++ rd := by
      unfold pathJoin
      rw [if_neg hrd2, if_neg hne, if_pos hlast]
    rw [e1]
    unfold pathJoin
    rw [if_neg hfh, if_neg (by simp [hrd1]), if_neg (by
      rw [List.getLast?_append, hx]
      simp [hxne])]

/-- Claim C3: the path resolver returns exactly the spec's algorithm —
`n` up-segments for a chapter whose location's parent has `n` directory
components (a single `.` when `n = 0` or the location is absent), then
the cache-directory name, then the artifact's bare filename; in
particular a depth-0 chapter yields `./mdbook-drawio/foo-page-1.svg` and
a depth-2 chapter yields `../../mdbook-drawio/foo-page-1.svg`. -/
theorem claim_C3_path_resolver :
    ∀ (E : Env) (chPath : Option (List String)) (target fname : Text),
    fileName target = some fname →
    get_result_dir E ≠ [] →
    (get_result_dir E).head? ≠ some '/' →
    (get_result_dir E).getLast? ≠ some '/' →
    relative_path_from_chapter E chPath target =
      some (specRelativePath (get_result_dir E) chPath fname) ∧
    relative_path_from_chapter Edefault (some ["chapter.md"])
        ("/book/src/mdbook-drawio/foo-page-1.svg".toList) =
      some ("./mdbook-drawio/foo-page-1.svg".toList) ∧
    relative_path_from_chapter Edefault (some ["guide", "advanced", "chapter.md"])
        ("/book/src/mdbook-drawio/foo-page-1.svg".toList) =
      some ("../../mdbook-drawio/foo-page-1.svg".toList) := by
  intro E chPath target fname hf hrd1 hrd2 hrd3
  refine ⟨?_, by decide, by decide⟩
  have hfh : fname.head? ≠ some '/' := by
    intro hcon
    have hm : '/' ∈ fname := List.mem_of_mem_head? (by rw [hcon]; rfl)
    exact fileName_no_slash hf '/' hm rfl
  simp only [relative_path_from_chapter, hf, specRelativePath]
  rw [Option.some.injEq]
  exact pathJoin_up (get_result_dir E) fname _ hrd1 hrd2 hrd3 hfh

theorem claim_C3_witness :
    relative_path_from_chapter Edefault (some ["a", "b", "ch.md"])
        ("/book/src/mdbook-drawio/x-page-3.svg".toList) =
      some (specRelativePath (get_result_dir Edefault) (some ["a", "b", "ch.md"])
        ("x-page-3.svg".toList)) :=
  (claim_C3_path_resolver Edefault (some ["a", "b", "ch.md"])
    ("/book/src/mdbook-drawio/x-page-3.svg".toList) ("x-page-3.svg".toList)
    (by decide) (by decide) (by decide) (by decide)).1

/-! ## Claim C7 -/

/-- Claim C7: the renderer invoker returns an error value (it never
aborts) exactly when the subprocess fails to launch or the output file
does not exist afterwards; the subprocess's exit status, stdout and
stderr never influence the result — success is decided solely by the
post-condition that the artifact exists. -/
theorem claim_C7_export_postcondition :
    ∀ (E : Env) (input : Text) (page : Nat) (output_path : Text) (fs : FS),
    ((drawio_export E input page output_path fs).1 = Except.ok () ↔
      ∃ res, E.invoke (get_drawio_bin E) input page output_path fs = some res ∧
        res.fsAfter.present output_path = true) ∧
    (∀ (res : ProcResult) (st2 : Int) (out2 err2 : Text),
      export_check (some ⟨st2, out2, err2, res.fsAfter⟩) fs output_path =
        export_check (some res) fs output_path) ∧
    (export_check none fs output_path =
      (Except.error ("Output file was not created".toList), fs)) := by
  intro E input page output_path fs
  refine ⟨?_, ?_, rfl⟩
  · unfold drawio_export export_check
    cases hinv : E.invoke (get_drawio_bin E) input page output_path fs with
    | none => simp
    | some res =>
      cases hp : res.fsAfter.present output_path with
      | false => simp [hp]
      | true => simp [hp]
  · intro res st2 out2 err2
    unfold export_check
    rfl

/-! ## Claim C8 -/

theorem digitChar_isDigit {n : Nat} (h : n < 10) :
    (Nat.digitChar n).isDigit = true := by
  interval_cases n <;> decide

theorem toDigitsCore_digits :
    ∀ (fuel n : Nat) (acc : Text), (∀ c ∈ acc, c.isDigit = true) →
      ∀ c ∈ Nat.toDigitsCore 10 fuel n acc, c.isDigit = true := by
  intro fuel
  induction fuel with
  | zero => intro n acc hacc c hc; exact hacc c hc
  | succ fuel ih =>
    intro n acc hacc c hc
    simp only [Nat.toDigitsCore] at hc
    have hd : (Nat.digitChar (n % 10)).isDigit = true :=
      digitChar_isDigit (Nat.mod_lt _ (by omega))
    by_cases h0 : n / 10 = 0
    · rw [if_pos h0] at hc
      rcases List.mem_cons.mp hc with rfl | hc
      · exact hd
      · exact hacc c hc
    · rw [if_neg h0] at hc
      refine ih (n / 10) _ ?_ c hc
      intro c' hc'
      rcases List.mem_cons.mp hc' with rfl | hc'
      · exact hd
      · exact hacc c' hc'

/-- Every character of the decimal rendering of a natural number is a
digit. -/
theorem toDigits_digits (n : Nat) : ∀ c ∈ Nat.toDigits 10 n, c.isDigit = true :=
  toDigitsCore_digits (n + 1) n [] (by intro c hc; cases hc)

/-- Claim C8: the cached artifact lives in a single flat directory —
configurable with default name `mdbook-drawio` — placed directly under
the book's source root `root/src`, and is named deterministically
`<stem>-page-<n>.svg`; the name contains no path separator, and any two
occurrences whose diagram paths share a file stem and page resolve to
the identical artifact path. -/
theorem claim_C8_artifact_layout :
    ∀ (E : Env) (stem1 stem2 : Text) (page : Nat) (abs1 abs2 : Text),
    (E.resultDirCfg = none → get_result_dir E = "mdbook-drawio".toList) ∧
    (get_result_dir_abs E = pathJoin (pathJoin E.root E.srcDir) (get_result_dir E)) ∧
    (svgPathOf E stem1 page = pathJoin (get_result_dir_abs E) (svgName stem1 page)) ∧
    (svgName stem1 page =
      stem1 ++ "-page-".toList ++ Nat.toDigits 10 page ++ ".svg".toList) ∧
    (fileStem abs1 = some stem1 →
      (svgName stem1 page).all (fun c => !(c = '/')) = true) ∧
    (fileStem abs1 = fileStem abs2 → fileStem abs1 = some stem1 →
      fileStem abs2 = some stem2 → svgPathOf E stem1 page = svgPathOf E stem2 page) := by
  intro E stem1 stem2 page abs1 abs2
  refine ⟨fun h => by simp [get_result_dir, h], rfl, rfl, rfl, ?_, ?_⟩
  · intro hstem
    rw [List.all_eq_true]
    intro c hc
    unfold svgName at hc
    simp only [List.append_assoc, List.mem_append] at hc
    rcases hc with hc | hc | hc | hc
    · simpa using fileStem_no_slash hstem c hc
    · revert hc; intro hc; revert c; decide
    · have := toDigits_digits page c hc
      simp only [Bool.not_eq_eq_eq_not, Bool.not_true, decide_eq_false_iff_not]
      intro hcon
      rw [hcon] at this
      simp [Char.isDigit] at this
    · revert hc; intro hc; revert c; decide
  · intro h12 h1 h2
    have : stem1 = stem2 := by
      rw [h1, h2] at h12
      exact Option.some.inj h12
    rw [this]

theorem claim_C8_witness :
    get_result_dir Edefault = "mdbook-drawio".toList ∧
    (svgName ("x".toList) 2).all (fun c => !(c = '/')) = true ∧
    svgPathOf Edefault ("x".toList) 2 = svgPathOf Edefault ("x".toList) 2 ∧
    svgPathOf Edefault ("x".toList) 2 = "/book/src/mdbook-drawio/x-page-2.svg".toList :=
  ⟨(claim_C8_artifact_layout Edefault ("x".toList) ("x".toList) 2
      ("/book/a/x.drawio".toList) ("/book/b/x.drawio".toList)).1 rfl,
   (claim_C8_artifact_layout Edefault ("x".toList) ("x".toList) 2
      ("/book/a/x.drawio".toList) ("/book/b/x.drawio".toList)).2.2.2.2.1 (by decide),
   (claim_C8_artifact_layout Edefault ("x".toList) ("x".toList) 2
      ("/book/a/x.drawio".toList) ("/book/b/x.drawio".toList)).2.2.2.2.2
      (by decide) (by decide) (by decide),
   by decide⟩

/-! ## Lemmas for claim C9 -/

theorem root_setInvoke (E : Env) (inv) : (setInvoke E inv).root = E.root := rfl

theorem relPath_setInvoke (E : Env) (inv) (chPath) (t : Text) :
    relative_path_from_chapter (setInvoke E inv) chPath t =
      relative_path_from_chapter E chPath t := rfl

theorem svgPathOf_setInvoke (E : Env) (inv) (stem : Text) (page : Nat) :
    svgPathOf (setInvoke E inv) stem page = svgPathOf E stem page := rfl

/-- The substitution's emitted text does not depend on the subprocess
oracle or on the traversal state: only the state component does. -/
theorem processMatch_obs (E : Env) (inv2) (chPath : Option (List String))
    (p d : Text) (st st' : FS × Nat) :
    (processMatch (setInvoke E inv2) chPath p d st').map Prod.fst =
      (processMatch E chPath p d st).map Prod.fst := by
  unfold processMatch
  simp only [root_setInvoke, relPath_setInvoke, svgPathOf_setInvoke]
  cases hpg : parseU32 d with
  | none => rfl
  | some page =>
    cases hstem : fileStem (pathJoin E.root p) with
    | none => rfl
    | some stem =>
      cases hrel : relative_path_from_chapter E chPath (svgPathOf E stem page) with
      | none => simp [hrel]
      | some rel => simp [hrel]

/-- The rewriter's emitted text does not depend on the traversal state
when the substitution's does not. -/
theorem replaceAllStAux_obs {σ : Type} (f g : Text → Text → σ → Option (Text × σ))
    (hfg : ∀ p d st st', (f p d st).map Prod.fst = (g p d st').map Prod.fst) :
    ∀ (fuel : Nat) (s : Text) (st st' : σ),
      (replaceAllStAux f fuel s st).map Prod.fst =
        (replaceAllStAux g fuel s st').map Prod.fst := by
  intro fuel
  induction fuel with
  | zero => intro s st st'; rfl
  | succ n ih =>
    intro s st st'
    cases s with
    | nil => rfl
    | cons c cs =>
      cases hmd : matchDirective (c :: cs) with
      | none =>
        simp only [replaceAllStAux, hmd]
        have hobs := ih cs st st'
        cases h1 : replaceAllStAux f n cs st with
        | none =>
          cases h2 : replaceAllStAux g n cs st' with
          | none => rfl
          | some y => rw [h1, h2] at hobs; simp at hobs
        | some x =>
          obtain ⟨xr, xs⟩ := x
          cases h2 : replaceAllStAux g n cs st' with
          | none => rw [h1, h2] at hobs; simp at hobs
          | some y =>
            obtain ⟨yr, ys⟩ := y
            rw [h1, h2] at hobs
            simp only [Option.map_some', Option.some.injEq] at hobs
            simp [hobs]
      | some md =>
        obtain ⟨p, d, r⟩ := md
        have hsub := hfg p d st st'
        simp only [replaceAllStAux, hmd]
        cases h1 : f p d st with
        | none =>
          cases h2 : g p d st' with
          | none => rfl
          | some y => rw [h1, h2] at hsub; simp at hsub
        | some x =>
          obtain ⟨xr, xs⟩ := x
          cases h2 : g p d st' with
          | none => rw [h1, h2] at hsub; simp at hsub
          | some y =>
            obtain ⟨yr, ys⟩ := y
            rw [h1, h2] at hsub
            simp only [Option.map_some', Option.some.injEq] at hsub
            have hobs := ih r xs ys
            cases h3 : replaceAllStAux f n r xs with
            | none =>
              cases h4 : replaceAllStAux g n r ys with
              | none => simp [h3, h4]
              | some w => rw [h3, h4] at hobs; simp at hobs
            | some z =>
              cases h4 : replaceAllStAux g n r ys with
              | none => rw [h3, h4] at hobs; simp at hobs
              | some w =>
                obtain ⟨zr, zs⟩ := z
                obtain ⟨wr, ws⟩ := w
                rw [h3, h4] at hobs
                simp only [Option.map_some', Option.some.injEq] at hobs
                simp [h3, h4, hobs, hsub]

theorem obsE_eq_elim {α : Type} {x y : Option (Except (List Char) (α × (FS × Nat)))}
    (h : obsE x = obsE y) :
    (x = none ∧ y = none) ∨
    (∃ e, x = some (Except.error e) ∧ y = some (Except.error e)) ∨
    (∃ a s1 s2, x = some (Except.ok (a, s1)) ∧ y = some (Except.ok (a, s2))) := by
  cases x with
  | none =>
    cases y with
    | none => exact Or.inl ⟨rfl, rfl⟩
    | some ye =>
      cases ye with
      | error e => simp [obsE] at h
      | ok pr => obtain ⟨a, s⟩ := pr; simp [obsE] at h
  | some xe =>
    cases xe with
    | error e =>
      cases y with
      | none => simp [obsE] at h
      | some ye =>
        cases ye with
        | error e2 =>
          simp only [obsE, Option.some.injEq, Except.error.injEq] at h
          exact Or.inr (Or.inl ⟨e, rfl, by rw [h]⟩)
        | ok pr => obtain ⟨a, s⟩ := pr; simp [obsE] at h
    | ok pr =>
      obtain ⟨a, s1⟩ := pr
      cases y with
      | none => simp [obsE] at h
      | some ye =>
        cases ye with
        | error e2 => simp [obsE] at h
        | ok qr =>
          obtain ⟨b, s2⟩ := qr
          simp only [obsE, Option.some.injEq, Except.ok.injEq] at h
          exact Or.inr (Or.inr ⟨a, s1, s2, rfl, by rw [h]⟩)

theorem obs_chapter (n c : Text) (num : Option (List Nat)) (subs : BookItems)
    (p sp : Option (List String)) (pn : List Text) (ih : ObsItems subs) :
    ObsItem (BookItem.chapter n c num subs p sp pn) := by
  intro E inv2 st st'
  have hcc := replaceAllStAux_obs (processMatch (setInvoke E inv2) p) (processMatch E p)
    (fun pc dc s1 s2 => processMatch_obs E inv2 p pc dc s2 s1) c.length c st' st
  constructor
  · cases h1 : processChapterContent (setInvoke E inv2) p c st' with
    | none =>
      cases h2 : processChapterContent E p c st with
      | none => simp [processItem, h1, h2, obsE]
      | some y =>
        rw [show replaceAllStAux (processMatch (setInvoke E inv2) p) c.length c st' =
              processChapterContent (setInvoke E inv2) p c st' from rfl,
            show replaceAllStAux (processMatch E p) c.length c st =
              processChapterContent E p c st from rfl, h1, h2] at hcc
        simp at hcc
    | some x =>
      obtain ⟨c2, s1⟩ := x
      cases h2 : processChapterContent E p c st with
      | none =>
        rw [show replaceAllStAux (processMatch (setInvoke E inv2) p) c.length c st' =
              processChapterContent (setInvoke E inv2) p c st' from rfl,
            show replaceAllStAux (processMatch E p) c.length c st =
              processChapterContent E p c st from rfl, h1, h2] at hcc
        simp at hcc
      | some y =>
        obtain ⟨c2b, s2⟩ := y
        rw [show replaceAllStAux (processMatch (setInvoke E inv2) p) c.length c st' =
              processChapterContent (setInvoke E inv2) p c st' from rfl,
            show replaceAllStAux (processMatch E p) c.length c st =
              processChapterContent E p c st from rfl, h1, h2] at hcc
        simp only [Option.map_some', Option.some.injEq] at hcc
        subst hcc
        obtain ⟨hobs2, -⟩ := ih E inv2 s2 s1
        rcases obsE_eq_elim hobs2 with ⟨h3, h4⟩ | ⟨e, h3, h4⟩ | ⟨ss, t1, t2, h3, h4⟩ <;>
          simp [processItem, h1, h2, h3, h4, obsE]
  · intro e
    cases h2 : processChapterContent E p c st with
    | none => simp [processItem, h2]
    | some y =>
      obtain ⟨c2, s2⟩ := y
      obtain ⟨-, hner⟩ := ih E inv2 s2 s2
      cases h3 : processItems E subs s2 with
      | none => simp [processItem, h2, h3]
      | some ye =>
        cases ye with
        | error e3 => exact absurd h3 (hner e3)
        | ok qr =>
          obtain ⟨ss, s3⟩ := qr
          simp [processItem, h2, h3]

theorem obs_sep : ObsItem BookItem.separator := by
  intro E inv2 st st'
  constructor
  · simp [processItem, obsE]
  · intro e
    simp [processItem]

theorem obs_title (t : Text) : ObsItem (BookItem.partTitle t) := by
  intro E inv2 st st'
  constructor
  · simp [processItem, obsE]
  · intro e
    simp [processItem]

theorem obs_nil : ObsItems BookItems.nil := by
  intro E inv2 st st'
  constructor
  · simp [processItems, obsE]
  · intro e
    simp [processItems]

theorem obs_cons (i : BookItem) (rest : BookItems) (ihi : ObsItem i)
    (ihr : ObsItems rest) : ObsItems (BookItems.cons i rest) := by
  intro E inv2 st st'
  obtain ⟨hobs, hne⟩ := ihi E inv2 st st'
  constructor
  · rcases obsE_eq_elim hobs with ⟨h1, h2⟩ | ⟨e, h1, h2⟩ | ⟨i2, s1, s2, h1, h2⟩
    · simp [processItems, h1, h2, obsE]
    · simp [processItems, h1, h2, obsE]
    · obtain ⟨hobs2, -⟩ := ihr E inv2 s2 s1
      rcases obsE_eq_elim hobs2 with ⟨h3, h4⟩ | ⟨e, h3, h4⟩ | ⟨r2, t1, t2, h3, h4⟩ <;>
        simp [processItems, h1, h2, h3, h4, obsE]
  · intro e
    cases h2 : processItem E i st with
    | none => simp [processItems, h2]
    | some xe =>
      cases xe with
      | error e2 => exact absurd h2 (hne e2)
      | ok pr =>
        obtain ⟨i2, s2⟩ := pr
        obtain ⟨-, hner⟩ := ihr E inv2 s2 s2
        cases h3 : processItems E rest s2 with
        | none => simp [processItems, h2, h3]
        | some ye =>
          cases ye with
          | error e3 => exact absurd h3 (hner e3)
          | ok qr =>
            obtain ⟨r2, s3⟩ := qr
            simp [processItems, h2, h3]

theorem obsItems_all : ∀ l, ObsItems l :=
  fun l => @BookItems.rec ObsItem ObsItems obs_chapter obs_sep obs_title obs_nil obs_cons l

theorem runP_eq_obsE (E : Env) (book : BookItems) (st : FS × Nat) :
    runPreprocessor E book st = obsE (processItems E book st) := by
  unfold runPreprocessor obsE
  cases h : processItems E book st with
  | none => rfl
  | some xe =>
    cases xe with
    | error e => rfl
    | ok pr => obtain ⟨b, s⟩ := pr; rfl

/-- Claim C4: renderer failures are swallowed.  Replacing the subprocess
oracle by any other (including one that always fails to launch or never
produces a file) leaves the run's result — rewritten text included —
unchanged, and whenever the run terminates it returns `Ok book`, never
an error caused by a diagram. -/
theorem claim_C4_renderer_failure_swallowed :
    ∀ (E : Env) (inv2 : Text → Text → Nat → Text → FS → Option ProcResult)
      (book : BookItems) (st : FS × Nat),
      runPreprocessor (setInvoke E inv2) book st = runPreprocessor E book st ∧
      (∀ x, runPreprocessor E book st = some x → ∃ b, x = Except.ok b) := by
  intro E inv2 book st
  obtain ⟨hobs, hne⟩ := obsItems_all book E inv2 st st
  constructor
  · rw [runP_eq_obsE, runP_eq_obsE, hobs]
  · intro x hx
    rw [runP_eq_obsE] at hx
    cases h : processItems E book st with
    | none => rw [h] at hx; cases hx
    | some xe =>
      cases xe with
      | error e => exact absurd h (hne e)
      | ok pr =>
        obtain ⟨b, s⟩ := pr
        rw [h] at hx
        simp only [obsE, Option.some.injEq] at hx
        exact ⟨b, hx.symm⟩

theorem claim_C4_witness :
    runPreprocessor (setInvoke Edefault (fun _ _ _ _ _ => none)) bookW (fsFresh, 0) =
      runPreprocessor Edefault bookW (fsFresh, 0) ∧
    ∃ b, (Except.ok bookW : Except (List Char) BookItems) = Except.ok b :=
  ⟨(claim_C4_renderer_failure_swallowed Edefault (fun _ _ _ _ _ => none) bookW
      (fsFresh, 0)).1,
   (claim_C4_renderer_failure_swallowed Edefault (fun _ _ _ _ _ => none) bookW
      (fsFresh, 0)).2 (Except.ok bookW) rfl⟩

theorem shape_chapter (n c : Text) (num : Option (List Nat)) (subs : BookItems)
    (p sp : Option (List String)) (pn : List Text) (ih : ShapeItems subs) :
    ShapeItem (BookItem.chapter n c num subs p sp pn) := by
  intro E st r hr
  cases h1 : processChapterContent E p c st with
  | none => simp [processItem, h1] at hr
  | some x =>
    obtain ⟨c2, s2⟩ := x
    cases h2 : processItems E subs s2 with
    | none => simp [processItem, h1, h2] at hr
    | some xe =>
      cases xe with
      | error e => simp [processItem, h1, h2] at hr
      | ok pr =>
        obtain ⟨subs2, s3⟩ := pr
        simp only [processItem, h1, h2, Option.some.injEq, Except.ok.injEq] at hr
        have hsub := ih E s2 (subs2, s3) h2
        rw [← hr]
        simp [shapeItem, hsub]

theorem shape_sep : ShapeItem BookItem.separator := by
  intro E st r hr
  simp only [processItem, Option.some.injEq, Except.ok.injEq] at hr
  rw [← hr]

theorem shape_title (t : Text) : ShapeItem (BookItem.partTitle t) := by
  intro E st r hr
  simp only [processItem, Option.some.injEq, Except.ok.injEq] at hr
  rw [← hr]

theorem shape_nil : ShapeItems BookItems.nil := by
  intro E st r hr
  simp only [processItems, Option.some.injEq, Except.ok.injEq] at hr
  rw [← hr]

theorem shape_cons (i : BookItem) (rest : BookItems) (ihi : ShapeItem i)
    (ihr : ShapeItems rest) : ShapeItems (BookItems.cons i rest) := by
  intro E st r hr
  cases h1 : processItem E i st with
  | none => simp [processItems, h1] at hr
  | some xe =>
    cases xe with
    | error e => simp [processItems, h1] at hr
    | ok pr =>
      obtain ⟨i2, s2⟩ := pr
      cases h2 : processItems E rest s2 with
      | none => simp [processItems, h1, h2] at hr
      | some ye =>
        cases ye with
        | error e => simp [processItems, h1, h2] at hr
        | ok qr =>
          obtain ⟨r2, s3⟩ := qr
          simp only [processItems, h1, h2, Option.some.injEq, Except.ok.injEq] at hr
          rw [← hr]
          simp [shapeItems, ihi E st (i2, s2) h1, ihr E s2 (r2, s3) h2]

theorem shapeItem_all : ∀ i, ShapeItem i :=
  fun i => @BookItem.rec ShapeItem ShapeItems shape_chapter shape_sep shape_title
    shape_nil shape_cons i

/-- Claim C10: the run mutates only chapter text content.  Separators
and part titles are returned exactly unchanged (state untouched), and a
successfully processed item keeps its content-erased shape: chapter
name, section number, path, source path, parent names, and the
child-item structure and ordering, recursively. -/
theorem claim_C10_frame : ∀ (E : Env) (st : FS × Nat),
    (∀ t, processItem E (BookItem.partTitle t) st =
      some (Except.ok (BookItem.partTitle t, st))) ∧
    (processItem E BookItem.separator st =
      some (Except.ok (BookItem.separator, st))) ∧
    (∀ (i : BookItem) (r : BookItem × (FS × Nat)),
      processItem E i st = some (Except.ok r) → shapeItem r.1 = shapeItem i) := by
  intro E st
  exact ⟨fun t => by simp [processItem], by simp [processItem],
    fun i r hr => shapeItem_all i E st r hr⟩

theorem claim_C10_witness :
    shapeItem (BookItem.chapter ("c".toList) ("hi".toList) none BookItems.nil
        none none []) =
      shapeItem (BookItem.chapter ("c".toList) ("hi".toList) none BookItems.nil
        none none []) :=
  (claim_C10_frame Edefault (fsFresh, 0)).2.2
    (BookItem.chapter ("c".toList) ("hi".toList) none BookItems.nil none none [])
    (BookItem.chapter ("c".toList) ("hi".toList) none BookItems.nil none none [],
      (fsFresh, 0))
    rfl

end MdbookDrawio

